import Mathlib

/-!
# Verification of the QUIC packet layer (Apache Traffic Server, `iocore/net/quic`)

Shallow embedding of the packet-layer subsystem declared in
`src/iocore/net/quic/QUICPacket.h` and `src/iocore/net/quic/QUICPacketFactory.h`.
Both files are header-only interfaces: the implementation bodies (`QUICPacket.cc`,
`QUICPacketFactory.cc`) are not part of the repository snapshot, so every
operation whose body is missing is modelled from the repository's specification
(`spec.md`), faithful to its wording; functions whose bodies do appear inline in
the headers (such as `QUICPacketShortHeader::source_cid`) are translated from
that source directly.

Machine integers (`QUICPacketNumber` is a `uint64_t` holding a 62-bit value,
bytes are `uint8_t`) are modelled as `Nat` with explicit bounds / `% 2 ^ w`
where overflow or bit-level behaviour matters.
-/

namespace QUICSpec

/-! ## Packet number codec (spec §4.3; bodies of `QUICPacket::calc_packet_number_len`,
`encode_packet_number`, `decode_packet_number` are not under src) -/

/-- Modelled from the spec: `QUICPacket::calc_packet_number_len(num, base)`
(declared at QUICPacket.h:354, body missing). Spec §4.3:
"returns the smallest `n ∈ {1,2,3,4}` such that `2^(8n-1) > full - base`",
with 4 as the fallback when no such length exists. -/
def calc_packet_number_len (num base : Nat) : Nat :=
  if num - base < 2 ^ 7 then 1
  else if num - base < 2 ^ 15 then 2
  else if num - base < 2 ^ 23 then 3
  else 4

/-- Modelled from the spec: `QUICPacket::encode_packet_number(dst, src, len)`
(declared at QUICPacket.h:355, body missing). Spec §4.3: "`encode(full, n)` →
low n bytes of full"; the low `n` bytes are the bitwise AND with the
`n`-byte mask, as a `uint64_t` computation. -/
def encode_packet_number (src : Nat) (len : Nat) : Nat :=
  src &&& (2 ^ (8 * len) - 1)

/-- Modelled from the spec: `QUICPacket::decode_packet_number(dst, src, len,
largest_acked)` (declared at QUICPacket.h:356, body missing). Spec §4.3:
let `expected = largest_acked + 1`, `win = 1 << (8n)`, `hwin = win/2`,
`mask = win - 1`; `candidate = (expected & ~mask) | truncated`; add `win` when
`candidate ≤ expected - hwin` and `candidate < (1<<62) - win`; subtract `win`
when `candidate > expected + hwin` and `candidate ≥ win`; else return
`candidate`.  The `~` is the 64-bit complement of the `uint64_t` mask; the
comparisons against differences are the RFC's unbounded-integer comparisons,
rendered over `Nat` without underflow (`candidate ≤ expected - hwin` is
`candidate + hwin ≤ expected`, `candidate < (1<<62) - win` is
`candidate + win < 2^62`). -/
def decode_candidate (truncated : Nat) (len : Nat) (largest_acked : Nat) : Nat :=
  ((largest_acked + 1) &&& ((2 ^ 64 - 1) ^^^ (2 ^ (8 * len) - 1))) ||| truncated

def decode_packet_number (truncated : Nat) (len : Nat) (largest_acked : Nat) : Nat :=
  if decode_candidate truncated len largest_acked + 2 ^ (8 * len) / 2 ≤ largest_acked + 1 ∧
      decode_candidate truncated len largest_acked + 2 ^ (8 * len) < 2 ^ 62 then
    decode_candidate truncated len largest_acked + 2 ^ (8 * len)
  else if largest_acked + 1 + 2 ^ (8 * len) / 2 < decode_candidate truncated len largest_acked ∧
      2 ^ (8 * len) ≤ decode_candidate truncated len largest_acked then
    decode_candidate truncated len largest_acked - 2 ^ (8 * len)
  else
    decode_candidate truncated len largest_acked

/-! ### Arithmetic characterisation of the bitwise candidate -/

/-- The masked-or candidate of the decoder, computed with 64-bit bitwise
operations, equals the arithmetic "replace the low `k` bits of `e` by `t`". -/
lemma candidate_eq (e t k : Nat) (he : e < 2 ^ 64) (hk : k ≤ 64) (ht : t < 2 ^ k) :
    (e &&& ((2 ^ 64 - 1) ^^^ (2 ^ k - 1))) ||| t = 2 ^ k * (e / 2 ^ k) + t := by
  apply Nat.eq_of_testBit_eq
  intro i
  rw [Nat.testBit_or, Nat.testBit_and, Nat.testBit_xor,
    Nat.testBit_two_pow_sub_one, Nat.testBit_two_pow_sub_one,
    Nat.testBit_mul_pow_two_add _ ht]
  by_cases hik : i < k
  · have h64 : i < 64 := lt_of_lt_of_le hik hk
    simp [hik, h64]
  · have hti : t.testBit i = false :=
      Nat.testBit_lt_two_pow (lt_of_lt_of_le ht (Nat.pow_le_pow_right (by norm_num) (by omega)))
    have hdiv : (e / 2 ^ k).testBit (i - k) = e.testBit i := by
      rw [← Nat.shiftRight_eq_div_pow, Nat.testBit_shiftRight]
      congr 1
      omega
    by_cases hi64 : i < 64
    · simp [hik, hi64, hti, hdiv]
    · have hei : e.testBit i = false :=
        Nat.testBit_lt_two_pow (lt_of_lt_of_le he (Nat.pow_le_pow_right (by norm_num) (by omega)))
      simp [hik, hi64, hti, hdiv, hei]

/-- `encode_packet_number` is reduction modulo the window. -/
lemma encode_eq_mod (src len : Nat) :
    encode_packet_number src len = src % 2 ^ (8 * len) := by
  unfold encode_packet_number
  exact Nat.and_pow_two_sub_one_eq_mod src (8 * len)

/-- `calc_packet_number_len` always answers in `{1, 2, 3, 4}`. -/
lemma calc_packet_number_len_mem (num base : Nat) :
    1 ≤ calc_packet_number_len num base ∧ calc_packet_number_len num base ≤ 4 := by
  unfold calc_packet_number_len
  split_ifs <;> omega

/-- When the distance to the base is below `2^31`, the selected length's half
window strictly exceeds the distance. -/
lemma calc_packet_number_len_hwin (num base : Nat) (hd : num - base < 2 ^ 31) :
    num - base < 2 ^ (8 * calc_packet_number_len num base - 1) := by
  unfold calc_packet_number_len
  split_ifs <;> simp_all

/-- Core recovery lemma: decoding the truncation of `full` at any length whose
half-window exceeds `full - largest_acked` returns `full`. -/
lemma decode_encode_core (full la len : Nat) (hlen1 : 1 ≤ len) (hlen4 : len ≤ 4)
    (hla : la ≤ full) (hfull : full < 2 ^ 62)
    (hd : full - la < 2 ^ (8 * len - 1)) :
    decode_packet_number (encode_packet_number full len) len la = full := by
  have he : la + 1 < 2 ^ 64 := by
    have : (2 : Nat) ^ 62 < 2 ^ 64 := by norm_num
    omega
  have hk : 8 * len ≤ 64 := by omega
  have ht : full % 2 ^ (8 * len) < 2 ^ (8 * len) := Nat.mod_lt _ (Nat.pos_pow_of_pos _ (by norm_num))
  unfold decode_packet_number decode_candidate
  rw [encode_eq_mod, candidate_eq (la + 1) (full % 2 ^ (8 * len)) (8 * len) he hk ht]
  have h1 : 2 ^ (8 * len) * ((la + 1) / 2 ^ (8 * len)) + (la + 1) % 2 ^ (8 * len) = la + 1 :=
    Nat.div_add_mod _ _
  have h2 : 2 ^ (8 * len) * (full / 2 ^ (8 * len)) + full % 2 ^ (8 * len) = full :=
    Nat.div_add_mod _ _
  have h3 : (la + 1) % 2 ^ (8 * len) < 2 ^ (8 * len) :=
    Nat.mod_lt _ (Nat.pos_pow_of_pos _ (by norm_num))
  interval_cases len <;>
    · norm_num at *
      split_ifs <;> omega

/-- Packet-number recovery for the length chosen by `calc_packet_number_len`,
valid whenever the distance to the base is under `2^31` (so that a length in
`{1,2,3,4}` with a sufficient half-window exists). -/
lemma decode_encode_calc (full base : Nat) (hb : base ≤ full) (hfull : full < 2 ^ 62)
    (hd : full - base < 2 ^ 31) :
    decode_packet_number (encode_packet_number full (calc_packet_number_len full base))
      (calc_packet_number_len full base) base = full := by
  obtain ⟨h1, h4⟩ := calc_packet_number_len_mem full base
  exact decode_encode_core full base _ h1 h4 hb hfull (calc_packet_number_len_hwin full base hd)

/-- C1 counterexample: for `full = 0x180000000` (which is `3·2^31 < 2^62`) and
`largest_acked = 0`, the PN codec round trip fails: the distance exceeds every
representable half-window, `calc_packet_number_len` falls back to 4 bytes, and
window-centred decoding recovers `0x80000000` instead of `full`. -/
theorem c1_pn_roundtrip_cex :
    0 ≤ (0x180000000 : Nat) ∧ (0x180000000 : Nat) < 2 ^ 62 ∧
      decode_packet_number
        (encode_packet_number 0x180000000 (calc_packet_number_len 0x180000000 0))
        (calc_packet_number_len 0x180000000 0) 0 ≠ 0x180000000 := by
  refine ⟨Nat.zero_le _, by norm_num, ?_⟩
  decide

/-- C1 (amended): for every packet number `full < 2^62` and every
`largest_acked ≤ full` **with `full - largest_acked < 2^31`**, decoding the
encoding round-trips: with `n = calc_packet_number_len(full, largest_acked)`,
`encode_packet_number(full, n)` followed by `decode_packet_number` with the
same `n` and `largest_acked` yields `full` again. -/
theorem c1_pn_codec_roundtrip (full largest_acked : Nat)
    (hla : largest_acked ≤ full) (hfull : full < 2 ^ 62)
    (hd : full - largest_acked < 2 ^ 31) :
    decode_packet_number
      (encode_packet_number full (calc_packet_number_len full largest_acked))
      (calc_packet_number_len full largest_acked) largest_acked = full :=
  decode_encode_calc full largest_acked hla hfull hd

/-- C1 witness: concrete instance of the round trip. -/
theorem c1_pn_codec_roundtrip_witness :
    (12340000 : Nat) ≤ 12345678 ∧ (12345678 : Nat) < 2 ^ 62 ∧
      (12345678 : Nat) - 12340000 < 2 ^ 31 ∧
      decode_packet_number
        (encode_packet_number 12345678 (calc_packet_number_len 12345678 12340000))
        (calc_packet_number_len 12345678 12340000) 12340000 = 12345678 :=
  ⟨by norm_num, by norm_num, by norm_num,
    c1_pn_codec_roundtrip 12345678 12340000 (by norm_num) (by norm_num) (by norm_num)⟩

/-- C3: `decode_packet_number` implements window-centred rounding.  With
`expected = largest_acked + 1`, `win = 2^(8·len)`, `hwin = win/2` and
`candidate` equal to `expected` with its low `8·len` bits replaced by the
truncated value (the arithmetic reading of `(expected & ~mask) | truncated`),
the decoder adds `win` when `candidate ≤ expected - hwin` and
`candidate < 2^62 - win`, subtracts `win` when `candidate > expected + hwin`
and `candidate ≥ win`, and otherwise returns `candidate`; in particular
decoding truncated `0x00` with `len = 1` and `largest_acked = 0xff` yields
`0x100`. -/
theorem c3_decode_window_rounding :
    (∀ truncated len largest_acked, 1 ≤ len → len ≤ 4 →
      truncated < 2 ^ (8 * len) → largest_acked < 2 ^ 62 →
      decode_packet_number truncated len largest_acked =
        (if 2 ^ (8 * len) * ((largest_acked + 1) / 2 ^ (8 * len)) + truncated + 2 ^ (8 * len) / 2
              ≤ largest_acked + 1 ∧
            2 ^ (8 * len) * ((largest_acked + 1) / 2 ^ (8 * len)) + truncated + 2 ^ (8 * len)
              < 2 ^ 62 then
          2 ^ (8 * len) * ((largest_acked + 1) / 2 ^ (8 * len)) + truncated + 2 ^ (8 * len)
        else if largest_acked + 1 + 2 ^ (8 * len) / 2
              < 2 ^ (8 * len) * ((largest_acked + 1) / 2 ^ (8 * len)) + truncated ∧
            2 ^ (8 * len) ≤ 2 ^ (8 * len) * ((largest_acked + 1) / 2 ^ (8 * len)) + truncated then
          2 ^ (8 * len) * ((largest_acked + 1) / 2 ^ (8 * len)) + truncated - 2 ^ (8 * len)
        else
          2 ^ (8 * len) * ((largest_acked + 1) / 2 ^ (8 * len)) + truncated)) ∧
    decode_packet_number 0x00 1 0xff = 0x100 := by
  constructor
  · intro truncated len largest_acked h1 h4 ht hla
    have he : largest_acked + 1 < 2 ^ 64 := by
      have : (2 : Nat) ^ 62 < 2 ^ 64 := by norm_num
      omega
    unfold decode_packet_number decode_candidate
    rw [candidate_eq (largest_acked + 1) truncated (8 * len) he (by omega) ht]
  · decide

/-- C3 witness: instance of the window-rounding characterisation at
`truncated = 0`, `len = 1`, `largest_acked = 0xff`. -/
theorem c3_decode_window_rounding_witness :
    (1 : Nat) ≤ 1 ∧ (1 : Nat) ≤ 4 ∧ (0 : Nat) < 2 ^ (8 * 1) ∧ (0xff : Nat) < 2 ^ 62 ∧
      decode_packet_number 0 1 0xff =
        (if 2 ^ (8 * 1) * ((0xff + 1) / 2 ^ (8 * 1)) + 0 + 2 ^ (8 * 1) / 2 ≤ 0xff + 1 ∧
            2 ^ (8 * 1) * ((0xff + 1) / 2 ^ (8 * 1)) + 0 + 2 ^ (8 * 1) < 2 ^ 62 then
          2 ^ (8 * 1) * ((0xff + 1) / 2 ^ (8 * 1)) + 0 + 2 ^ (8 * 1)
        else if 0xff + 1 + 2 ^ (8 * 1) / 2 < 2 ^ (8 * 1) * ((0xff + 1) / 2 ^ (8 * 1)) + 0 ∧
            2 ^ (8 * 1) ≤ 2 ^ (8 * 1) * ((0xff + 1) / 2 ^ (8 * 1)) + 0 then
          2 ^ (8 * 1) * ((0xff + 1) / 2 ^ (8 * 1)) + 0 - 2 ^ (8 * 1)
        else
          2 ^ (8 * 1) * ((0xff + 1) / 2 ^ (8 * 1)) + 0) :=
  ⟨le_refl 1, by norm_num, by norm_num, by norm_num,
    c3_decode_window_rounding.1 0 1 0xff (le_refl 1) (by norm_num) (by norm_num) (by norm_num)⟩

/-- C4 counterexample: at `full = 2^31`, `base = 0` (with `base ≤ full`) no
`n ∈ {1,2,3,4}` satisfies `2^(8n-1) > full - base`; in particular the value
`calc_packet_number_len` returns does not satisfy the claimed defining
property of "the smallest such n". -/
theorem c4_calc_pn_len_cex :
    (0 : Nat) ≤ 2 ^ 31 ∧
      ¬(2 ^ (8 * calc_packet_number_len (2 ^ 31) 0 - 1) > (2 ^ 31 : Nat) - 0) := by
  refine ⟨Nat.zero_le _, ?_⟩
  decide

/-- C4 (amended): for every `full` and `base` with `base ≤ full` **and
`full - base < 2^31`**, `calc_packet_number_len full base` returns the
smallest `n ∈ {1,2,3,4}` with `2^(8n-1) > full - base`; in particular
`calc_packet_number_len 0xac5c02 0xabe8b3 = 2`. -/
theorem c4_calc_pn_len_smallest :
    (∀ num base, base ≤ num → num - base < 2 ^ 31 →
      1 ≤ calc_packet_number_len num base ∧ calc_packet_number_len num base ≤ 4 ∧
        num - base < 2 ^ (8 * calc_packet_number_len num base - 1) ∧
        ∀ m, 1 ≤ m → num - base < 2 ^ (8 * m - 1) → calc_packet_number_len num base ≤ m) ∧
    calc_packet_number_len 0xac5c02 0xabe8b3 = 2 := by
  constructor
  · intro num base _ hd
    obtain ⟨h1, h4⟩ := calc_packet_number_len_mem num base
    refine ⟨h1, h4, calc_packet_number_len_hwin num base hd, ?_⟩
    intro m hm hp
    by_cases hm4 : m ≤ 4
    · interval_cases m <;>
        · norm_num at hp
          unfold calc_packet_number_len
          split_ifs <;> omega
    · omega
  · decide

/-- C4 witness: instance at the spec's golden vector
`calc_pn_len(0xac5c02, 0xabe8b3) = 2`. -/
theorem c4_calc_pn_len_smallest_witness :
    (0xabe8b3 : Nat) ≤ 0xac5c02 ∧ (0xac5c02 : Nat) - 0xabe8b3 < 2 ^ 31 ∧
      1 ≤ calc_packet_number_len 0xac5c02 0xabe8b3 ∧
      calc_packet_number_len 0xac5c02 0xabe8b3 ≤ 4 ∧
      (0xac5c02 : Nat) - 0xabe8b3 < 2 ^ (8 * calc_packet_number_len 0xac5c02 0xabe8b3 - 1) := by
  have h := c4_calc_pn_len_smallest.1 0xac5c02 0xabe8b3 (by norm_num) (by norm_num)
  exact ⟨by norm_num, by norm_num, h.1, h.2.1, h.2.2.1⟩

/-! ## Wire primitives (spec §4.1): bounds-checked big-endian readers/writers
and QUIC varints over byte lists.  A byte is a `Nat`; well-formed buffers keep
every byte below 256. -/

/-- Big-endian fixed-width writer: the `w` bytes of `v`, most significant
first (each reduced mod 256; callers pass `v < 2^(8w)`). -/
def wBE : Nat → Nat → List Nat
  | 0, _ => []
  | w + 1, v => (v / 2 ^ (8 * w)) % 256 :: wBE w v

/-- Big-endian fixed-width reader: consumes `w` bytes, fails when the input is
shorter. -/
def rBE : Nat → List Nat → Option (Nat × List Nat)
  | 0, bs => some (0, bs)
  | _ + 1, [] => none
  | w + 1, b :: bs => (rBE w bs).map fun p => (b * 2 ^ (8 * w) + p.1, p.2)

/-- Raw byte-string reader: consumes exactly `n` bytes. -/
def rBytes : Nat → List Nat → Option (List Nat × List Nat)
  | 0, bs => some ([], bs)
  | _ + 1, [] => none
  | n + 1, b :: bs => (rBytes n bs).map fun p => (b :: p.1, p.2)

lemma wBE_length (w v : Nat) : (wBE w v).length = w := by
  induction w generalizing v with
  | zero => rfl
  | succ w ih => simp [wBE, ih]

lemma rBE_wBE (w v : Nat) (rest : List Nat) :
    rBE w (wBE w v ++ rest) = some (v % 2 ^ (8 * w), rest) := by
  induction w generalizing v with
  | zero => simp [wBE, rBE, Nat.mod_one]
  | succ w ih =>
    have key : v % 2 ^ (8 * (w + 1)) = v % 2 ^ (8 * w) + 2 ^ (8 * w) * (v / 2 ^ (8 * w) % 256) := by
      have h8 : (8 : Nat) * (w + 1) = 8 * w + 8 := by ring
      rw [h8, pow_add, Nat.mod_mul]
      norm_num
    show (rBE w (wBE w v ++ rest)).map
        (fun p => ((v / 2 ^ (8 * w)) % 256 * 2 ^ (8 * w) + p.1, p.2)) = _
    rw [ih]
    simp only [Option.map_some', Option.some.injEq, Prod.mk.injEq]
    exact ⟨by rw [key]; ring, trivial⟩

lemma rBE_wBE_of_lt {w v : Nat} (h : v < 2 ^ (8 * w)) (rest : List Nat) :
    rBE w (wBE w v ++ rest) = some (v, rest) := by
  rw [rBE_wBE, Nat.mod_eq_of_lt h]

lemma rBytes_append (xs rest : List Nat) :
    rBytes xs.length (xs ++ rest) = some (xs, rest) := by
  induction xs with
  | nil => simp [rBytes]
  | cons b bs ih => simp [rBytes, ih]

/-- QUIC variable-length integer writer (spec §4.1): 2-bit length prefix
selecting 1/2/4/8 bytes, remaining bits big-endian.  The prefix is folded into
the leading byte by adding it at bit position `8w - 2`. -/
def wVarint (v : Nat) : List Nat :=
  if v < 2 ^ 6 then wBE 1 v
  else if v < 2 ^ 14 then wBE 2 (v + 2 ^ 14)
  else if v < 2 ^ 30 then wBE 4 (v + 2 * 2 ^ 30)
  else wBE 8 (v + 3 * 2 ^ 62)

/-- QUIC variable-length integer reader: the top two bits of the first byte
give the width `2^(b/64) ∈ {1,2,4,8}`; the value is the big-endian content
with the prefix bits stripped. -/
def rVarint (bs : List Nat) : Option (Nat × List Nat) :=
  match bs with
  | [] => none
  | b :: _ =>
    (rBE (2 ^ (b / 64)) bs).map fun p => (p.1 % 2 ^ (8 * 2 ^ (b / 64) - 2), p.2)

lemma rVarint_cons (b : Nat) (bs : List Nat) :
    rVarint (b :: bs) =
      (rBE (2 ^ (b / 64)) (b :: bs)).map
        fun p => (p.1 % 2 ^ (8 * 2 ^ (b / 64) - 2), p.2) := rfl

/-- The width of a varint encoding, for bounds bookkeeping. -/
def varintLen (v : Nat) : Nat :=
  if v < 2 ^ 6 then 1 else if v < 2 ^ 14 then 2 else if v < 2 ^ 30 then 4 else 8

lemma wVarint_length (v : Nat) : (wVarint v).length = varintLen v := by
  unfold wVarint varintLen
  split_ifs <;> simp [wBE_length]

lemma rVarint_wVarint (v : Nat) (hv : v < 2 ^ 62) (rest : List Nat) :
    rVarint (wVarint v ++ rest) = some (v, rest) := by
  unfold wVarint
  split_ifs with h1 h2 h3
  · -- one-byte form
    have hshape : wBE 1 v ++ rest = v :: rest := by
      show (v / 2 ^ (8 * 0) % 256) :: ([] ++ rest) = v :: rest
      have hhead : v / 2 ^ (8 * 0) % 256 = v := by norm_num; omega
      rw [hhead]
      rfl
    have hr := rBE_wBE_of_lt (w := 1) (v := v) (by norm_num; omega) rest
    rw [hshape] at hr ⊢
    rw [rVarint_cons]
    have hd : v / 64 = 0 := by omega
    rw [hd]
    have h20 : (2 : Nat) ^ (0 : Nat) = 1 := by norm_num
    rw [h20, hr]
    simp only [Option.map_some', Option.some.injEq, Prod.mk.injEq]
    exact ⟨by norm_num; omega, trivial⟩
  · -- two-byte form: leading byte is 64 + v / 256 ∈ [64, 128)
    have hshape : wBE 2 (v + 2 ^ 14) ++ rest = (64 + v / 256) :: (wBE 1 (v + 2 ^ 14) ++ rest) := by
      show ((v + 2 ^ 14) / 2 ^ (8 * 1) % 256) :: (wBE 1 (v + 2 ^ 14) ++ rest) = _
      have hhead : (v + 2 ^ 14) / 2 ^ (8 * 1) % 256 = 64 + v / 256 := by norm_num; omega
      rw [hhead]
    have hr := rBE_wBE_of_lt (w := 2) (v := v + 2 ^ 14) (by norm_num; omega) rest
    rw [hshape] at hr ⊢
    rw [rVarint_cons]
    have hd : (64 + v / 256) / 64 = 1 := by omega
    rw [hd]
    have h21 : (2 : Nat) ^ (1 : Nat) = 2 := by norm_num
    rw [h21, hr]
    simp only [Option.map_some', Option.some.injEq, Prod.mk.injEq]
    exact ⟨by norm_num; omega, trivial⟩
  · -- four-byte form: leading byte is 128 + v / 2^24 ∈ [128, 192)
    have hshape : wBE 4 (v + 2 * 2 ^ 30) ++ rest
        = (128 + v / 2 ^ 24) :: (wBE 3 (v + 2 * 2 ^ 30) ++ rest) := by
      show ((v + 2 * 2 ^ 30) / 2 ^ (8 * 3) % 256) :: (wBE 3 (v + 2 * 2 ^ 30) ++ rest) = _
      have hhead : (v + 2 * 2 ^ 30) / 2 ^ (8 * 3) % 256 = 128 + v / 2 ^ 24 := by norm_num; omega
      rw [hhead]
    have hr := rBE_wBE_of_lt (w := 4) (v := v + 2 * 2 ^ 30) (by norm_num; omega) rest
    rw [hshape] at hr ⊢
    rw [rVarint_cons]
    have hd : (128 + v / 2 ^ 24) / 64 = 2 := by omega
    rw [hd]
    have h22 : (2 : Nat) ^ (2 : Nat) = 4 := by norm_num
    rw [h22, hr]
    simp only [Option.map_some', Option.some.injEq, Prod.mk.injEq]
    exact ⟨by norm_num; omega, trivial⟩
  · -- eight-byte form: leading byte is 192 + v / 2^56 ∈ [192, 256)
    have hshape : wBE 8 (v + 3 * 2 ^ 62) ++ rest
        = (192 + v / 2 ^ 56) :: (wBE 7 (v + 3 * 2 ^ 62) ++ rest) := by
      show ((v + 3 * 2 ^ 62) / 2 ^ (8 * 7) % 256) :: (wBE 7 (v + 3 * 2 ^ 62) ++ rest) = _
      have hhead : (v + 3 * 2 ^ 62) / 2 ^ (8 * 7) % 256 = 192 + v / 2 ^ 56 := by norm_num; omega
      rw [hhead]
    have hr := rBE_wBE_of_lt (w := 8) (v := v + 3 * 2 ^ 62) (by norm_num; omega) rest
    rw [hshape] at hr ⊢
    rw [rVarint_cons]
    have hd : (192 + v / 2 ^ 56) / 64 = 3 := by omega
    rw [hd]
    have h23 : (2 : Nat) ^ (3 : Nat) = 8 := by norm_num
    rw [h23, hr]
    simp only [Option.map_some', Option.some.injEq, Prod.mk.injEq]
    exact ⟨by norm_num; omega, trivial⟩

/-! ## Connection IDs, packet types and the header model (spec §§3, 4.2, 4.4).
`QUICConnectionId` and `QUICPacketType` live in `QUICTypes.h`, which is not
under src; they are modelled from the spec's data model.  The header classes
`QUICPacketLongHeader` / `QUICPacketShortHeader` are declared in
`QUICPacket.h`; their `store` / `load` bodies are missing and are modelled
from the spec's byte layouts (§4.4). -/

/-- Modelled from the spec: a connection ID is an immutable byte string
(0–20 bytes); equality is length + bytes. -/
structure QUICConnectionId where
  id : List Nat
deriving DecidableEq

/-- Modelled from the spec: the distinguished zero-length sentinel
`QUICConnectionId::ZERO()`. -/
def QUICConnectionId.ZERO : QUICConnectionId := ⟨[]⟩

/-- Modelled from the spec (§3, data model): packet type variant. -/
inductive QUICPacketType
  | INITIAL
  | ZERO_RTT
  | HANDSHAKE
  | RETRY
  | VERSION_NEGOTIATION
  | ONE_RTT
  | STATELESS_RESET
  | UNKNOWN
deriving DecidableEq

/-- Modelled from the spec: the header value — a tagged variant of the long
shapes (Initial / 0-RTT / Handshake / Retry / Version Negotiation) and the
short shape, carrying exactly the fields §4.4 puts on the wire plus the
packet-number context (`base_packet_number`) the source constructors take. -/
inductive QUICPacketHeader
  | longInitial (version : Nat) (destination_cid source_cid : QUICConnectionId)
      (token : List Nat) (payload_len packet_number base_packet_number : Nat)
  | longZeroRTT (version : Nat) (destination_cid source_cid : QUICConnectionId)
      (payload_len packet_number base_packet_number : Nat)
  | longHandshake (version : Nat) (destination_cid source_cid : QUICConnectionId)
      (payload_len packet_number base_packet_number : Nat)
  | longRetry (version : Nat) (destination_cid source_cid original_dcid : QUICConnectionId)
      (retry_token : List Nat)
  | versionNegotiation (destination_cid source_cid : QUICConnectionId)
  | shortHeader (key_phase : Bool) (destination_cid : QUICConnectionId)
      (packet_number base_packet_number : Nat)
deriving DecidableEq

namespace QUICPacketHeader

/-- Modelled from the spec: `QUICPacketHeader::store` (declared at
QUICPacket.h:105, bodies of the long/short overrides missing).  Serialises
exactly the header bytes of §4.4: first byte `1|1|TT|RR|PP` (long) or
`0|1|S|R|R|K|PP` (short, spin 0), version u32 BE, DCIL/DCID, SCIL/SCID,
Initial token (varint length + bytes), Initial/0-RTT/Handshake length varint
(PN bytes + payload), Retry ODCIL/ODCID/token-remainder, truncated packet
number of `calc_packet_number_len` bytes. -/
def store : QUICPacketHeader → List Nat
  | .longInitial version dcid scid token payload_len pn base =>
    (0xC0 + 0 * 16 + (calc_packet_number_len pn base - 1)) ::
      (wBE 4 version ++ (dcid.id.length :: (dcid.id ++ (scid.id.length :: (scid.id ++
        (wVarint token.length ++ (token ++
          (wVarint (calc_packet_number_len pn base + payload_len) ++
            wBE (calc_packet_number_len pn base)
              (encode_packet_number pn (calc_packet_number_len pn base))))))))))
  | .longZeroRTT version dcid scid payload_len pn base =>
    (0xC0 + 1 * 16 + (calc_packet_number_len pn base - 1)) ::
      (wBE 4 version ++ (dcid.id.length :: (dcid.id ++ (scid.id.length :: (scid.id ++
        (wVarint (calc_packet_number_len pn base + payload_len) ++
          wBE (calc_packet_number_len pn base)
            (encode_packet_number pn (calc_packet_number_len pn base))))))))
  | .longHandshake version dcid scid payload_len pn base =>
    (0xC0 + 2 * 16 + (calc_packet_number_len pn base - 1)) ::
      (wBE 4 version ++ (dcid.id.length :: (dcid.id ++ (scid.id.length :: (scid.id ++
        (wVarint (calc_packet_number_len pn base + payload_len) ++
          wBE (calc_packet_number_len pn base)
            (encode_packet_number pn (calc_packet_number_len pn base))))))))
  | .longRetry version dcid scid odcid retry_token =>
    (0xC0 + 3 * 16) ::
      (wBE 4 version ++ (dcid.id.length :: (dcid.id ++ (scid.id.length :: (scid.id ++
        (odcid.id.length :: (odcid.id ++ retry_token)))))))
  | .versionNegotiation dcid scid =>
    0xC0 ::
      (wBE 4 0 ++ (dcid.id.length :: (dcid.id ++ (scid.id.length :: scid.id))))
  | .shortHeader key_phase dcid pn base =>
    (0x40 + (if key_phase then 4 else 0) + (calc_packet_number_len pn base - 1)) ::
      (dcid.id ++
        wBE (calc_packet_number_len pn base)
          (encode_packet_number pn (calc_packet_number_len pn base)))

/-- Modelled from the spec: `QUICPacketHeader::load` (declared at
QUICPacket.h:120, body missing).  Dispatches on bit 7 of byte 0; long headers
read version (0 ⇒ Version Negotiation), type bits 5–4, DCIL/DCID, SCIL/SCID,
the per-type trailer, and reconstruct the full packet number from the
truncated bytes with `decode_packet_number` against `base`; short headers
read the context-length DCID (`dcil_ctx`, not on the wire) and the packet
number. -/
def load (bs : List Nat) (base : Nat) (dcil_ctx : Nat) : Option QUICPacketHeader :=
  match bs with
  | [] => none
  | b0 :: rest =>
    if 128 ≤ b0 then do
      let (version, r1) ← rBE 4 rest
      let (dcil, r2) ← rBE 1 r1
      let (dcidBytes, r3) ← rBytes dcil r2
      let (scil, r4) ← rBE 1 r3
      let (scidBytes, r5) ← rBytes scil r4
      if version = 0 then
        pure (.versionNegotiation ⟨dcidBytes⟩ ⟨scidBytes⟩)
      else if b0 / 16 % 4 = 0 then do
        let (token_len, r6) ← rVarint r5
        let (token, r7) ← rBytes token_len r6
        let (len, r8) ← rVarint r7
        let (pnraw, _) ← rBE (b0 % 4 + 1) r8
        pure (.longInitial version ⟨dcidBytes⟩ ⟨scidBytes⟩ token (len - (b0 % 4 + 1))
          (decode_packet_number pnraw (b0 % 4 + 1) base) base)
      else if b0 / 16 % 4 = 1 then do
        let (len, r6) ← rVarint r5
        let (pnraw, _) ← rBE (b0 % 4 + 1) r6
        pure (.longZeroRTT version ⟨dcidBytes⟩ ⟨scidBytes⟩ (len - (b0 % 4 + 1))
          (decode_packet_number pnraw (b0 % 4 + 1) base) base)
      else if b0 / 16 % 4 = 2 then do
        let (len, r6) ← rVarint r5
        let (pnraw, _) ← rBE (b0 % 4 + 1) r6
        pure (.longHandshake version ⟨dcidBytes⟩ ⟨scidBytes⟩ (len - (b0 % 4 + 1))
          (decode_packet_number pnraw (b0 % 4 + 1) base) base)
      else do
        let (odcil, r6) ← rBE 1 r5
        let (odcidBytes, r7) ← rBytes odcil r6
        pure (.longRetry version ⟨dcidBytes⟩ ⟨scidBytes⟩ ⟨odcidBytes⟩ r7)
    else do
      let (dcidBytes, r1) ← rBytes dcil_ctx rest
      let (pnraw, _) ← rBE (b0 % 4 + 1) r1
      pure (.shortHeader (b0 / 4 % 2 == 1) ⟨dcidBytes⟩
        (decode_packet_number pnraw (b0 % 4 + 1) base) base)

/-- The base packet number a header was built against (the source keeps it in
`_base_packet_number`); 0 for the shapes that carry no packet number. -/
def base_packet_number : QUICPacketHeader → Nat
  | .longInitial _ _ _ _ _ _ b => b
  | .longZeroRTT _ _ _ _ _ b => b
  | .longHandshake _ _ _ _ _ b => b
  | .longRetry _ _ _ _ _ => 0
  | .versionNegotiation _ _ => 0
  | .shortHeader _ _ _ b => b

/-- The connection-context DCID length a parser must supply for a short
header (spec §4.4: short-header DCID length is not on the wire). -/
def ctx_dcil : QUICPacketHeader → Nat
  | .shortHeader _ d _ _ => d.id.length
  | _ => 0

end QUICPacketHeader

/-- Well-formed connection ID: 0–20 bytes, each below 256 (spec §4.2). -/
def validCID (c : QUICConnectionId) : Prop :=
  c.id.length ≤ 20 ∧ ∀ b ∈ c.id, b < 256

/-- Well-formed byte string. -/
def validBytes (l : List Nat) : Prop := ∀ b ∈ l, b < 256

/-- Well-formed packet-number context: the packet number is a 62-bit value at
distance below `2^31` from its base, so a truncation length in `{1,2,3,4}`
with a sufficient half-window exists (spec §3: the chosen length "must be
large enough"). -/
def validPN (pn base : Nat) : Prop :=
  base ≤ pn ∧ pn < 2 ^ 62 ∧ pn - base < 2 ^ 31

/-- Valid header value (spec §3 "Invariants" plus the field ranges of §4.4):
CIDs are 0–20 well-formed bytes, the version is a non-zero 32-bit value for
the long shapes that encode one, token and payload lengths are varint
encodable, and the packet number is recoverable from its base. -/
def QUICPacketHeader.valid : QUICPacketHeader → Prop
  | .longInitial version dcid scid token payload_len pn base =>
      version ≠ 0 ∧ version < 2 ^ 32 ∧ validCID dcid ∧ validCID scid ∧
        validBytes token ∧ token.length < 2 ^ 62 ∧ payload_len + 4 < 2 ^ 62 ∧ validPN pn base
  | .longZeroRTT version dcid scid payload_len pn base =>
      version ≠ 0 ∧ version < 2 ^ 32 ∧ validCID dcid ∧ validCID scid ∧
        payload_len + 4 < 2 ^ 62 ∧ validPN pn base
  | .longHandshake version dcid scid payload_len pn base =>
      version ≠ 0 ∧ version < 2 ^ 32 ∧ validCID dcid ∧ validCID scid ∧
        payload_len + 4 < 2 ^ 62 ∧ validPN pn base
  | .longRetry version dcid scid odcid retry_token =>
      version ≠ 0 ∧ version < 2 ^ 32 ∧ validCID dcid ∧ validCID scid ∧ validCID odcid ∧
        validBytes retry_token
  | .versionNegotiation dcid scid => validCID dcid ∧ validCID scid
  | .shortHeader _ dcid pn base => validCID dcid ∧ validPN pn base

/-! ### Header round trip -/

lemma rBE_one (b : Nat) (bs : List Nat) : rBE 1 (b :: bs) = some (b, bs) := by
  simp [rBE]

lemma rBytes_self (xs : List Nat) : rBytes xs.length xs = some (xs, []) := by
  simpa using rBytes_append xs []

lemma encode_lt (pn l : Nat) : encode_packet_number pn l < 2 ^ (8 * l) := by
  rw [encode_eq_mod]
  exact Nat.mod_lt _ (Nat.pos_pow_of_pos _ (by norm_num))

lemma rBE_wBE_encode (l pn : Nat) (rest : List Nat) :
    rBE l (wBE l (encode_packet_number pn l) ++ rest)
      = some (encode_packet_number pn l, rest) :=
  rBE_wBE_of_lt (encode_lt pn l) rest

lemma rBE_wBE_encode_nil (l pn : Nat) :
    rBE l (wBE l (encode_packet_number pn l)) = some (encode_packet_number pn l, []) := by
  simpa using rBE_wBE_encode l pn []

set_option maxHeartbeats 2000000 in
/-- C2: header serialisation followed by parsing (with the header's own base
packet number and, for short headers, the same connection-context DCID
length) reproduces the original header in all fields. -/
theorem c2_header_roundtrip (H : QUICPacketHeader) (hv : H.valid) :
    QUICPacketHeader.load H.store H.base_packet_number H.ctx_dcil = some H := by
  cases H with
  | longInitial version dcid scid token payload_len pn base =>
    obtain ⟨hv0, hv32, ⟨hdl, hdb⟩, ⟨hsl, hsb⟩, htb, htl, hpl, hbase, hp62, hd31⟩ := hv
    simp only [QUICPacketHeader.store, QUICPacketHeader.base_packet_number,
      QUICPacketHeader.ctx_dcil]
    have hdec := decode_encode_calc pn base hbase hp62 hd31
    obtain ⟨hl1, hl4⟩ := calc_packet_number_len_mem pn base
    have hver : ∀ rest, rBE 4 (wBE 4 version ++ rest) = some (version, rest) := by
      intro rest
      refine rBE_wBE_of_lt ?_ rest
      have h32 : (2 : Nat) ^ (8 * 4) = 2 ^ 32 := by norm_num
      rw [h32]
      exact hv32
    have htok : ∀ rest, rVarint (wVarint token.length ++ rest) = some (token.length, rest) :=
      fun rest => rVarint_wVarint _ htl rest
    generalize hl : calc_packet_number_len pn base = l at hdec hl1 hl4 ⊢
    have hlp : l + payload_len < 2 ^ 62 := by omega
    have hlen : ∀ rest, rVarint (wVarint (l + payload_len) ++ rest)
        = some (l + payload_len, rest) := fun rest => rVarint_wVarint _ hlp rest
    interval_cases l <;>
      simp [QUICPacketHeader.load, hver, htok, hlen, hdec, rBE_one, rBytes_append,
        rBytes_self, rBE_wBE_encode, rBE_wBE_encode_nil, hv0]
  | longZeroRTT version dcid scid payload_len pn base =>
    obtain ⟨hv0, hv32, ⟨hdl, hdb⟩, ⟨hsl, hsb⟩, hpl, hbase, hp62, hd31⟩ := hv
    simp only [QUICPacketHeader.store, QUICPacketHeader.base_packet_number,
      QUICPacketHeader.ctx_dcil]
    have hdec := decode_encode_calc pn base hbase hp62 hd31
    obtain ⟨hl1, hl4⟩ := calc_packet_number_len_mem pn base
    have hver : ∀ rest, rBE 4 (wBE 4 version ++ rest) = some (version, rest) := by
      intro rest
      refine rBE_wBE_of_lt ?_ rest
      have h32 : (2 : Nat) ^ (8 * 4) = 2 ^ 32 := by norm_num
      rw [h32]
      exact hv32
    generalize hl : calc_packet_number_len pn base = l at hdec hl1 hl4 ⊢
    have hlp : l + payload_len < 2 ^ 62 := by omega
    have hlen : ∀ rest, rVarint (wVarint (l + payload_len) ++ rest)
        = some (l + payload_len, rest) := fun rest => rVarint_wVarint _ hlp rest
    interval_cases l <;>
      simp [QUICPacketHeader.load, hver, hlen, hdec, rBE_one, rBytes_append,
        rBytes_self, rBE_wBE_encode, rBE_wBE_encode_nil, hv0]
  | longHandshake version dcid scid payload_len pn base =>
    obtain ⟨hv0, hv32, ⟨hdl, hdb⟩, ⟨hsl, hsb⟩, hpl, hbase, hp62, hd31⟩ := hv
    simp only [QUICPacketHeader.store, QUICPacketHeader.base_packet_number,
      QUICPacketHeader.ctx_dcil]
    have hdec := decode_encode_calc pn base hbase hp62 hd31
    obtain ⟨hl1, hl4⟩ := calc_packet_number_len_mem pn base
    have hver : ∀ rest, rBE 4 (wBE 4 version ++ rest) = some (version, rest) := by
      intro rest
      refine rBE_wBE_of_lt ?_ rest
      have h32 : (2 : Nat) ^ (8 * 4) = 2 ^ 32 := by norm_num
      rw [h32]
      exact hv32
    generalize hl : calc_packet_number_len pn base = l at hdec hl1 hl4 ⊢
    have hlp : l + payload_len < 2 ^ 62 := by omega
    have hlen : ∀ rest, rVarint (wVarint (l + payload_len) ++ rest)
        = some (l + payload_len, rest) := fun rest => rVarint_wVarint _ hlp rest
    interval_cases l <;>
      simp [QUICPacketHeader.load, hver, hlen, hdec, rBE_one, rBytes_append,
        rBytes_self, rBE_wBE_encode, rBE_wBE_encode_nil, hv0]
  | longRetry version dcid scid odcid retry_token =>
    obtain ⟨hv0, hv32, ⟨hdl, hdb⟩, ⟨hsl, hsb⟩, ⟨hol, hob⟩, hrb⟩ := hv
    simp only [QUICPacketHeader.store, QUICPacketHeader.base_packet_number,
      QUICPacketHeader.ctx_dcil]
    have hver : ∀ rest, rBE 4 (wBE 4 version ++ rest) = some (version, rest) := by
      intro rest
      refine rBE_wBE_of_lt ?_ rest
      have h32 : (2 : Nat) ^ (8 * 4) = 2 ^ 32 := by norm_num
      rw [h32]
      exact hv32
    simp [QUICPacketHeader.load, hver, rBE_one, rBytes_append, rBytes_self, hv0]
  | versionNegotiation dcid scid =>
    obtain ⟨⟨hdl, hdb⟩, ⟨hsl, hsb⟩⟩ := hv
    simp only [QUICPacketHeader.store, QUICPacketHeader.base_packet_number,
      QUICPacketHeader.ctx_dcil]
    have hver0 : ∀ rest, rBE 4 (wBE 4 0 ++ rest) = some (0, rest) := by
      intro rest
      refine rBE_wBE_of_lt ?_ rest
      norm_num
    simp [QUICPacketHeader.load, hver0, rBE_one, rBytes_append, rBytes_self]
  | shortHeader key_phase dcid pn base =>
    obtain ⟨⟨hdl, hdb⟩, hbase, hp62, hd31⟩ := hv
    simp only [QUICPacketHeader.store, QUICPacketHeader.base_packet_number,
      QUICPacketHeader.ctx_dcil]
    have hdec := decode_encode_calc pn base hbase hp62 hd31
    obtain ⟨hl1, hl4⟩ := calc_packet_number_len_mem pn base
    generalize hl : calc_packet_number_len pn base = l at hdec hl1 hl4 ⊢
    cases key_phase <;> interval_cases l <;>
      simp [QUICPacketHeader.load, hdec, rBE_one, rBytes_append, rBytes_self,
        rBE_wBE_encode, rBE_wBE_encode_nil]

/-- C2 witness: a concrete short header (key phase 1, 4-byte DCID,
packet number `0x12345678` against base `0x12345600`) round-trips. -/
theorem c2_header_roundtrip_witness :
    (QUICPacketHeader.shortHeader true ⟨[1, 2, 3, 4]⟩ 0x12345678 0x12345600).valid ∧
      QUICPacketHeader.load
        (QUICPacketHeader.shortHeader true ⟨[1, 2, 3, 4]⟩ 0x12345678 0x12345600).store
        (QUICPacketHeader.shortHeader true ⟨[1, 2, 3, 4]⟩ 0x12345678 0x12345600).base_packet_number
        (QUICPacketHeader.shortHeader true ⟨[1, 2, 3, 4]⟩ 0x12345678 0x12345600).ctx_dcil
        = some (QUICPacketHeader.shortHeader true ⟨[1, 2, 3, 4]⟩ 0x12345678 0x12345600) :=
  ⟨by constructor <;> norm_num [validCID, validPN], 
    c2_header_roundtrip _ (by constructor <;> norm_num [validCID, validPN])⟩

/-! ## Source CID accessor (C9) — `QUICPacketShortHeader::source_cid` is one
of the few bodies present inline in the source (QUICPacket.h:249-253). -/

/-- `QUICPacketHeader::source_cid`: long headers return their stored source
CID (`_source_cid`); the short-header override is inline in the source and
returns `QUICConnectionId::ZERO()` unconditionally. -/
def QUICPacketHeader.source_cid : QUICPacketHeader → QUICConnectionId
  | .longInitial _ _ s _ _ _ _ => s
  | .longZeroRTT _ _ s _ _ _ => s
  | .longHandshake _ _ s _ _ _ => s
  | .longRetry _ _ s _ _ => s
  | .versionNegotiation _ s => s
  | .shortHeader _ _ _ _ => QUICConnectionId.ZERO

/-- C9: for every short header, however constructed, `source_cid` returns the
zero-length sentinel `QUICConnectionId::ZERO()`. -/
theorem c9_short_header_source_cid :
    ∀ (key_phase : Bool) (dcid : QUICConnectionId) (pn base : Nat),
      (QUICPacketHeader.shortHeader key_phase dcid pn base).source_cid
          = QUICConnectionId.ZERO ∧
        QUICConnectionId.ZERO.id.length = 0 :=
  fun _ _ _ _ => ⟨rfl, rfl⟩

/-! ## QUICPacket and its constructors (C10) -/

/-- `QUICPacket` (QUICPacket.h:299-369): header, payload buffer with its
size, and the two metadata flags, whose in-class initial values are `false`
(QUICPacket.h:367-368). -/
structure QUICPacket where
  header : QUICPacketHeader
  payload : List Nat
  payload_size : Nat
  _is_retransmittable : Bool
  _is_probing_packet : Bool

/-- Modelled from the spec: the receive-path constructor
`QUICPacket(QUICPacketHeaderUPtr, ats_unique_buf, size_t)`
(QUICPacket.h:310, body missing).  It takes no flag arguments, so the flag
members keep their in-class initialisers `false`. -/
def QUICPacket.mkReceived (header : QUICPacketHeader) (payload : List Nat)
    (payload_len : Nat) : QUICPacket :=
  ⟨header, payload, payload_len, false, false⟩

/-- The send-path constructor with explicit flags (QUICPacket.h:319). -/
def QUICPacket.mkSend (header : QUICPacketHeader) (payload : List Nat)
    (payload_len : Nat) (retransmittable probing : Bool) : QUICPacket :=
  ⟨header, payload, payload_len, retransmittable, probing⟩

def QUICPacket.is_retransmittable (p : QUICPacket) : Bool := p._is_retransmittable

def QUICPacket.is_probing_packet (p : QUICPacket) : Bool := p._is_probing_packet

/-- C10: a packet built through the receive-path constructor reports both
`is_retransmittable()` and `is_probing_packet()` as `false`. -/
theorem c10_received_packet_flags :
    ∀ (header : QUICPacketHeader) (payload : List Nat) (payload_len : Nat),
      (QUICPacket.mkReceived header payload payload_len).is_retransmittable = false ∧
        (QUICPacket.mkReceived header payload payload_len).is_probing_packet = false :=
  fun _ _ _ => ⟨rfl, rfl⟩

/-! ## Header protection (C5): `QUICPacket::protect_packet_number` /
`unprotect_packet_number` (QUICPacket.h:358-359, bodies missing), modelled
from spec §4.5. -/

/-- XOR a mask byte string into a byte list starting at `off`; mask bytes
that run past the end of the buffer are ignored. -/
def xorRange (bs : List Nat) (off : Nat) (m : List Nat) : List Nat :=
  match bs, off, m with
  | bs, _, [] => bs
  | [], _, _ => []
  | b :: bs, 0, mb :: ms => (b ^^^ mb) :: xorRange bs 0 ms
  | b :: bs, o + 1, ms => b :: xorRange bs o ms

lemma xorRange_xorRange (bs : List Nat) (off : Nat) (m : List Nat) :
    xorRange (xorRange bs off m) off m = bs := by
  induction bs generalizing off m with
  | nil => cases m <;> simp [xorRange]
  | cons b bs ih =>
    cases m with
    | nil => simp [xorRange]
    | cons mb ms =>
      cases off with
      | zero => simp [xorRange, ih, Nat.xor_cancel_right]
      | succ o => simp [xorRange, ih]

/-- Modelled from the spec: `QUICPacket::unprotect_packet_number`
(QUICPacket.h:359, body missing).  Receive-path removal per §4.5: XOR the
first byte with `mask[0] & 0x1f` (long) or `mask[0] & 0x0f` (short), read
`pn_len = (first_byte & 0x03) + 1` from the *unprotected* first byte, then
XOR `pn_len` bytes at `pn_offset` with `mask[1..]`.  The 5-byte mask the
protector derives from the sample is a parameter. -/
def unprotect_packet_number (packet : List Nat) (pn_offset : Nat)
    (mask : List Nat) : List Nat :=
  match packet with
  | [] => []
  | b0 :: rest =>
    ((b0 ^^^ (if 128 ≤ b0 then mask.headI &&& 0x1f else mask.headI &&& 0x0f)) ::
      xorRange rest (pn_offset - 1)
        ((mask.drop 1).take
          ((b0 ^^^ (if 128 ≤ b0 then mask.headI &&& 0x1f else mask.headI &&& 0x0f)) % 4 + 1)))

/-- Modelled from the spec: `QUICPacket::protect_packet_number`
(QUICPacket.h:358, body missing).  Send-path application per §4.5, mirrored:
read `pn_len` from the still-clear first byte, XOR the `pn_len` packet-number
bytes with `mask[1..]`, then XOR the first byte with `mask[0] & 0x1f` (long)
or `mask[0] & 0x0f` (short). -/
def protect_packet_number (packet : List Nat) (pn_offset : Nat)
    (mask : List Nat) : List Nat :=
  match packet with
  | [] => []
  | b0 :: rest =>
    ((b0 ^^^ (if 128 ≤ b0 then mask.headI &&& 0x1f else mask.headI &&& 0x0f)) ::
      xorRange rest (pn_offset - 1) ((mask.drop 1).take (b0 % 4 + 1)))

/-- XOR with a value below 32 never changes bit 7 of a byte. -/
lemma xor_lt32_bit7 (b m : Nat) (hb : b < 256) (hm : m < 32) :
    (128 ≤ b ^^^ m) ↔ (128 ≤ b) := by
  have hx : b ^^^ m < 256 := Nat.xor_lt_two_pow (n := 8) (by omega) (by omega)
  have h7 : (b ^^^ m).testBit 7 = b.testBit 7 := by
    rw [Nat.testBit_xor, Nat.testBit_lt_two_pow (x := m) (i := 7) (by omega)]
    simp
  rw [Nat.testBit_to_div_mod, Nat.testBit_to_div_mod] at h7
  have h := decide_eq_decide.mp h7
  omega

/-- C5: header protection is involutive — applying packet-number protection
after removing it, and removing it after applying it, restores the original
bytes, provided the same 5-byte mask (derived from the identical sample) is
used in both directions and the packet's first byte is a byte value. -/
theorem c5_header_protection_involutive (packet : List Nat) (pn_offset : Nat)
    (mask : List Nat) (hp : ∀ b ∈ packet.take 1, b < 256) :
    protect_packet_number (unprotect_packet_number packet pn_offset mask) pn_offset mask
        = packet ∧
      unprotect_packet_number (protect_packet_number packet pn_offset mask) pn_offset mask
        = packet := by
  cases packet with
  | nil => exact ⟨rfl, rfl⟩
  | cons b0 rest =>
    have hb0 : b0 < 256 := hp b0 (by simp)
    have hm0l : mask.headI &&& 0x1f < 32 := by
      have := Nat.and_le_right (n := mask.headI) (m := 0x1f)
      omega
    have hm0s : mask.headI &&& 0x0f < 32 := by
      have := Nat.and_le_right (n := mask.headI) (m := 0x0f)
      omega
    constructor
    · -- protect ∘ unprotect
      simp only [unprotect_packet_number, protect_packet_number]
      by_cases hlong : 128 ≤ b0
      · have hbit : (128 ≤ b0 ^^^ (mask.headI &&& 0x1f)) = (128 ≤ b0) :=
          propext (xor_lt32_bit7 b0 _ hb0 hm0l)
        simp only [if_pos hlong, hbit, Nat.xor_cancel_right, xorRange_xorRange]
      · have hbit : (128 ≤ b0 ^^^ (mask.headI &&& 0x0f)) = (128 ≤ b0) :=
          propext (xor_lt32_bit7 b0 _ hb0 hm0s)
        simp only [if_neg hlong, hbit, Nat.xor_cancel_right, xorRange_xorRange]
    · -- unprotect ∘ protect
      simp only [unprotect_packet_number, protect_packet_number]
      by_cases hlong : 128 ≤ b0
      · have hbit : (128 ≤ b0 ^^^ (mask.headI &&& 0x1f)) = (128 ≤ b0) :=
          propext (xor_lt32_bit7 b0 _ hb0 hm0l)
        simp only [if_pos hlong, hbit, Nat.xor_cancel_right, xorRange_xorRange]
      · have hbit : (128 ≤ b0 ^^^ (mask.headI &&& 0x0f)) = (128 ≤ b0) :=
          propext (xor_lt32_bit7 b0 _ hb0 hm0s)
        simp only [if_neg hlong, hbit, Nat.xor_cancel_right, xorRange_xorRange]

/-- C5 witness: a concrete two-byte packet with a concrete mask restores
itself both ways. -/
theorem c5_header_protection_involutive_witness :
    (∀ b ∈ ([0xc3, 0x55, 0x10] : List Nat).take 1, b < 256) ∧
      protect_packet_number
          (unprotect_packet_number [0xc3, 0x55, 0x10] 2 [0x1f, 0xaa, 0xbb, 0xcc, 0xdd]) 2
          [0x1f, 0xaa, 0xbb, 0xcc, 0xdd] = [0xc3, 0x55, 0x10] ∧
      unprotect_packet_number
          (protect_packet_number [0xc3, 0x55, 0x10] 2 [0x1f, 0xaa, 0xbb, 0xcc, 0xdd]) 2
          [0x1f, 0xaa, 0xbb, 0xcc, 0xdd] = [0xc3, 0x55, 0x10] := by
  have h := c5_header_protection_involutive [0xc3, 0x55, 0x10] 2 [0x1f, 0xaa, 0xbb, 0xcc, 0xdd]
    (by decide)
  exact ⟨by decide, h.1, h.2⟩

/-! ## Packet number generator (C8): `QUICPacketNumberGenerator`
(QUICPacketFactory.h:29-38 and QUICPacket.h:371-379; bodies of `next` and
`reset` missing). -/

/-- `QUICPacketNumberGenerator`: a single counter `_current`
(`std::atomic<QUICPacketNumber>`, initialised to 0). -/
structure QUICPacketNumberGenerator where
  _current : Nat

/-- Modelled from the spec: `QUICPacketNumberGenerator::next()`
(QUICPacketFactory.h:33, body missing).  Spec §4.7: "`next()` atomically
returns the current value and increments". -/
def QUICPacketNumberGenerator.next (g : QUICPacketNumberGenerator) :
    Nat × QUICPacketNumberGenerator :=
  (g._current, ⟨g._current + 1⟩)

/-- Modelled from the spec: `QUICPacketNumberGenerator::reset()`
(QUICPacketFactory.h:34, body missing): sets the counter back to 0. -/
def QUICPacketNumberGenerator.reset (_ : QUICPacketNumberGenerator) :
    QUICPacketNumberGenerator :=
  ⟨0⟩

/-- Generator state after `k` consecutive `next()` calls (no reset). -/
def QUICPacketNumberGenerator.afterCalls (g : QUICPacketNumberGenerator) :
    Nat → QUICPacketNumberGenerator
  | 0 => g
  | k + 1 => ((g.afterCalls k).next).2

/-- The values returned by the first `k` consecutive `next()` calls. -/
def QUICPacketNumberGenerator.returns (g : QUICPacketNumberGenerator) :
    Nat → List Nat
  | 0 => []
  | k + 1 => g.returns k ++ [((g.afterCalls k).next).1]

lemma afterCalls_current (g : QUICPacketNumberGenerator) (k : Nat) :
    (g.afterCalls k)._current = g._current + k := by
  induction k with
  | zero => rfl
  | succ k ih =>
    have hstep : (g.afterCalls (k + 1))._current = (g.afterCalls k)._current + 1 := rfl
    rw [hstep, ih]
    omega

lemma returns_eq_range' (g : QUICPacketNumberGenerator) (k : Nat) :
    g.returns k = List.range' g._current k := by
  induction k with
  | zero => rfl
  | succ k ih =>
    rw [QUICPacketNumberGenerator.returns, ih, List.range'_1_concat]
    simp [QUICPacketNumberGenerator.next, afterCalls_current]

/-- C8: over any run of `next()` calls with no intervening reset, the
returned values are strictly increasing (so no value is ever returned
twice), the internal counter is monotonically non-decreasing, and a single
`next()` returns the current counter and increments it. -/
theorem c8_generator_monotone :
    ∀ (g : QUICPacketNumberGenerator) (k : Nat),
      List.Pairwise (· < ·) (g.returns k) ∧
        (∀ i j, i ≤ j → (g.afterCalls i)._current ≤ (g.afterCalls j)._current) ∧
        g.next = (g._current, ⟨g._current + 1⟩) := by
  intro g k
  refine ⟨?_, ?_, rfl⟩
  · rw [returns_eq_range']
    exact List.pairwise_lt_range' g._current k
  · intro i j hij
    rw [afterCalls_current, afterCalls_current]
    omega

/-! ## Static raw-byte queries on long headers (C7) — the static members of
`QUICPacketLongHeader` (QUICPacket.h:210-222, bodies missing), modelled from
spec §4.4: they "operate on raw bytes without constructing a full header" and
each "returns failure if the field would extend past the buffer". -/

/-- A single raw byte at index `i`, failing past the end. -/
def byteAt (bs : List Nat) (i : Nat) : Option Nat := bs[i]?

/-- Big-endian read of `w` raw bytes at index `i`, failing when the field
extends past the buffer. -/
def readBEAt (bs : List Nat) (i w : Nat) : Option Nat :=
  if i + w ≤ bs.length then
    some (((bs.drop i).take w).foldl (fun acc b => acc * 256 + b) 0)
  else none

/-- Varint read at index `i`: the top two bits of the leading byte give the
width; returns the value and the field width, failing when the field extends
past the buffer. -/
def readVarintAt (bs : List Nat) (i : Nat) : Option (Nat × Nat) :=
  (byteAt bs i).bind fun b =>
    (readBEAt bs i (2 ^ (b / 64))).map fun v =>
      (v % 2 ^ (8 * 2 ^ (b / 64) - 2), 2 ^ (b / 64))

namespace QUICPacketLongHeader

/-- Modelled from the spec: `QUICPacketLongHeader::type(type, packet,
packet_len)` (QUICPacket.h:210) — the type bits 5-4 of byte 0. -/
def type (bs : List Nat) : Option Nat :=
  (byteAt bs 0).map fun b => b / 16 % 4

/-- Modelled from the spec: `QUICPacketLongHeader::version(version, packet,
packet_len)` (QUICPacket.h:211) — bytes 1..4, big endian. -/
def version (bs : List Nat) : Option Nat := readBEAt bs 1 4

/-- Modelled from the spec: `QUICPacketLongHeader::dcil(dcil, packet,
packet_len)` (QUICPacket.h:215) — the DCIL byte at offset 5. -/
def dcil (bs : List Nat) : Option Nat := byteAt bs 5

/-- Modelled from the spec: `QUICPacketLongHeader::scil(scil, packet,
packet_len)` (QUICPacket.h:219) — the SCIL byte following the DCID. -/
def scil (bs : List Nat) : Option Nat :=
  (dcil bs).bind fun d => byteAt bs (6 + d)

/-- Modelled from the spec: `QUICPacketLongHeader::token_length(token_length,
field_len, packet, packet_len)` (QUICPacket.h:220) — the Initial token-length
varint following the SCID, returned with its field width. -/
def token_length (bs : List Nat) : Option (Nat × Nat) :=
  (dcil bs).bind fun d => (scil bs).bind fun s => readVarintAt bs (7 + d + s)

/-- Modelled from the spec: `QUICPacketLongHeader::length(length, field_len,
packet, packet_len)` (QUICPacket.h:221) — the length varint (after the token
for Initial packets, directly after the SCID for 0-RTT/Handshake), returned
with its field width; Retry and Version Negotiation have no length field. -/
def length (bs : List Nat) : Option (Nat × Nat) :=
  (type bs).bind fun t => (dcil bs).bind fun d => (scil bs).bind fun s =>
    if t = 0 then
      (token_length bs).bind fun p => readVarintAt bs (7 + d + s + p.2 + p.1)
    else if t = 1 ∨ t = 2 then readVarintAt bs (7 + d + s)
    else none

/-- Modelled from the spec: `QUICPacketLongHeader::packet_number_offset(
pn_offset, packet, packet_len)` (QUICPacket.h:222) — the byte offset of the
packet-number field, directly after the length varint; fails when that
offset lies past the buffer. -/
def packet_number_offset (bs : List Nat) : Option Nat :=
  (type bs).bind fun t => (dcil bs).bind fun d => (scil bs).bind fun s =>
    if t = 0 then
      (token_length bs).bind fun p => (readVarintAt bs (7 + d + s + p.2 + p.1)).bind fun q =>
        if 7 + d + s + p.2 + p.1 + q.2 ≤ bs.length then some (7 + d + s + p.2 + p.1 + q.2)
        else none
    else if t = 1 ∨ t = 2 then
      (readVarintAt bs (7 + d + s)).bind fun q =>
        if 7 + d + s + q.2 ≤ bs.length then some (7 + d + s + q.2) else none
    else none

end QUICPacketLongHeader

lemma byteAt_some_bound {bs : List Nat} {i b : Nat} (h : byteAt bs i = some b) :
    i + 1 ≤ bs.length := by
  unfold byteAt at h
  rw [List.getElem?_eq_some_iff] at h
  obtain ⟨hlt, -⟩ := h
  omega

lemma readBEAt_some_bound {bs : List Nat} {i w v : Nat} (h : readBEAt bs i w = some v) :
    i + w ≤ bs.length := by
  unfold readBEAt at h
  by_cases hb : i + w ≤ bs.length
  · exact hb
  · rw [if_neg hb] at h
    exact absurd h (by simp)

lemma readVarintAt_some_bound {bs : List Nat} {i v w : Nat}
    (h : readVarintAt bs i = some (v, w)) : i + w ≤ bs.length := by
  unfold readVarintAt at h
  rw [Option.bind_eq_some] at h
  obtain ⟨b, -, h⟩ := h
  rw [Option.map_eq_some'] at h
  obtain ⟨u, hr, h⟩ := h
  have hb := readBEAt_some_bound hr
  have hw : w = 2 ^ (b / 64) := (congrArg Prod.snd h.symm : _)
  omega

/-- C7: every static raw-byte query on a long header fails whenever the
queried field would extend past the end of the supplied buffer — stated in
contrapositive form: a successful query implies its field (at the offset the
§4.4 layout dictates, with the returned width for varint fields) lies within
the buffer. -/
theorem c7_static_query_bounds (bs : List Nat) :
    (∀ t, QUICPacketLongHeader.type bs = some t → 1 ≤ bs.length) ∧
      (∀ v, QUICPacketLongHeader.version bs = some v → 1 + 4 ≤ bs.length) ∧
      (∀ d, QUICPacketLongHeader.dcil bs = some d → 5 + 1 ≤ bs.length) ∧
      (∀ s, QUICPacketLongHeader.scil bs = some s →
        ∃ d, QUICPacketLongHeader.dcil bs = some d ∧ 6 + d + 1 ≤ bs.length) ∧
      (∀ tl w, QUICPacketLongHeader.token_length bs = some (tl, w) →
        ∃ d s, QUICPacketLongHeader.dcil bs = some d ∧
          QUICPacketLongHeader.scil bs = some s ∧ 7 + d + s + w ≤ bs.length) ∧
      (∀ ln w, QUICPacketLongHeader.length bs = some (ln, w) →
        ∃ i, readVarintAt bs i = some (ln, w) ∧ i + w ≤ bs.length) ∧
      (∀ off, QUICPacketLongHeader.packet_number_offset bs = some off →
        off ≤ bs.length) := by
  refine ⟨?_, ?_, ?_, ?_, ?_, ?_, ?_⟩
  · intro t h
    unfold QUICPacketLongHeader.type at h
    rw [Option.map_eq_some'] at h
    obtain ⟨b, hb, -⟩ := h
    have := byteAt_some_bound hb
    omega
  · intro v h
    exact readBEAt_some_bound h
  · intro d h
    have := byteAt_some_bound h
    omega
  · intro s h
    unfold QUICPacketLongHeader.scil at h
    rw [Option.bind_eq_some] at h
    obtain ⟨d, hd, hb⟩ := h
    have := byteAt_some_bound hb
    exact ⟨d, hd, by omega⟩
  · intro tl w h
    unfold QUICPacketLongHeader.token_length at h
    rw [Option.bind_eq_some] at h
    obtain ⟨d, hd, h⟩ := h
    rw [Option.bind_eq_some] at h
    obtain ⟨s, hs, h⟩ := h
    have := readVarintAt_some_bound h
    exact ⟨d, s, hd, hs, by omega⟩
  · intro ln w h
    unfold QUICPacketLongHeader.length at h
    rw [Option.bind_eq_some] at h
    obtain ⟨t, -, h⟩ := h
    rw [Option.bind_eq_some] at h
    obtain ⟨d, -, h⟩ := h
    rw [Option.bind_eq_some] at h
    obtain ⟨s, -, h⟩ := h
    split_ifs at h with ht0 ht12
    · rw [Option.bind_eq_some] at h
      obtain ⟨p, -, h⟩ := h
      exact ⟨7 + d + s + p.2 + p.1, h, readVarintAt_some_bound h⟩
    · exact ⟨7 + d + s, h, readVarintAt_some_bound h⟩
  · intro off h
    unfold QUICPacketLongHeader.packet_number_offset at h
    rw [Option.bind_eq_some] at h
    obtain ⟨t, -, h⟩ := h
    rw [Option.bind_eq_some] at h
    obtain ⟨d, -, h⟩ := h
    rw [Option.bind_eq_some] at h
    obtain ⟨s, -, h⟩ := h
    split_ifs at h with ht0 ht12
    · rw [Option.bind_eq_some] at h
      obtain ⟨p, -, h⟩ := h
      rw [Option.bind_eq_some] at h
      obtain ⟨q, -, h⟩ := h
      split_ifs at h with hle
      simp only [Option.some.injEq] at h
      omega
    · rw [Option.bind_eq_some] at h
      obtain ⟨q, -, h⟩ := h
      split_ifs at h with hle
      simp only [Option.some.injEq] at h
      omega

/-- C7 witness: on the spec's Initial example prefix
`c3 00 00 00 01 08 …` the successful queries indeed lie within bounds. -/
theorem c7_static_query_bounds_witness :
    QUICPacketLongHeader.type [0xc3, 0, 0, 0, 1, 0] = some 0 ∧
      1 ≤ ([0xc3, 0, 0, 0, 1, 0] : List Nat).length ∧
      QUICPacketLongHeader.version [0xc3, 0, 0, 0, 1, 0] = some 1 ∧
      1 + 4 ≤ ([0xc3, 0, 0, 0, 1, 0] : List Nat).length ∧
      QUICPacketLongHeader.dcil [0xc3, 0, 0, 0, 1, 0] = some 0 ∧
      5 + 1 ≤ ([0xc3, 0, 0, 0, 1, 0] : List Nat).length := by
  have h := c7_static_query_bounds [0xc3, 0, 0, 0, 1, 0]
  refine ⟨by decide, h.1 0 (by decide), by decide, h.2.1 1 (by decide), by decide,
    h.2.2.1 0 (by decide)⟩

/-! ## Factory inbound dispatch (C6): the version handling at the head of
`QUICPacketFactory::create` (QUICPacketFactory.h:50-51, body missing),
modelled from spec §4.8 steps 1-2. -/

/-- Modelled from the spec: `QUICPacketCreationResult` (declared in
`QUICTypes.h`, not under src; constructor set per spec §4.8). -/
inductive QUICPacketCreationResult
  | success
  | failed
  | not_ready
  | ignored
  | unsupported_version
  | no_available_packet_number_space
deriving DecidableEq

/-- Outcome of the version-dispatch prefix of `QUICPacketFactory::create`:
either a Version Negotiation packet is produced with a result code, the
datagram is rejected with a result code before any further field is parsed,
parsing proceeds beyond the version field, or the buffer is not a parseable
long header. -/
inductive QUICCreateDecision
  | version_negotiation_packet (result : QUICPacketCreationResult)
  | rejected (result : QUICPacketCreationResult)
  | proceed (version : Nat)
  | not_long_header
deriving DecidableEq

/-- Modelled from the spec: the long-header version dispatch at the head of
`QUICPacketFactory::create` (QUICPacketFactory.h:50-51, body missing).
Spec §4.8 steps 1-2: determine the header shape from the first-byte high
bit; for long headers read the version; if zero, build a Version Negotiation
packet and return Success; if not in the supported set, return
`UnsupportedProtocolVersion` without further parsing; otherwise parsing
continues.  The supported-version set (`QUIC_SUPPORTED_VERSIONS`, declared
in `QUICTypes.h`, not under src) is a parameter. -/
def QUICPacketFactory.create_version_dispatch (supported : List Nat)
    (bs : List Nat) : QUICCreateDecision :=
  match byteAt bs 0 with
  | none => .rejected .failed
  | some b0 =>
    if 128 ≤ b0 then
      match readBEAt bs 1 4 with
      | none => .rejected .failed
      | some v =>
        if v = 0 then .version_negotiation_packet .success
        else if v ∈ supported then .proceed v
        else .rejected .unsupported_version
    else .not_long_header

/-- C6: for an inbound long-header buffer (high bit of byte 0 set, version
field present), `QUICPacketFactory::create` (i) returns a Version Negotiation
packet with result Success when the version field is zero, (ii) returns
result `UnsupportedProtocolVersion` when the version is non-zero and not in
the supported set, and (iii) decides this from the first five bytes alone —
any buffer with the same first five bytes yields the same decision, i.e. no
further field is parsed. -/
theorem c6_create_version_dispatch (supported bs : List Nat) (b0 v : Nat)
    (hb0 : byteAt bs 0 = some b0) (hlong : 128 ≤ b0)
    (hv : readBEAt bs 1 4 = some v) :
    (v = 0 →
        QUICPacketFactory.create_version_dispatch supported bs
          = .version_negotiation_packet .success) ∧
      (v ≠ 0 → v ∉ supported →
        QUICPacketFactory.create_version_dispatch supported bs
          = .rejected .unsupported_version) ∧
      (∀ bs', bs'.take 5 = bs.take 5 →
        QUICPacketFactory.create_version_dispatch supported bs'
          = QUICPacketFactory.create_version_dispatch supported bs) := by
  have hlen : 5 ≤ bs.length := readBEAt_some_bound hv
  refine ⟨?_, ?_, ?_⟩
  · intro hzero
    unfold QUICPacketFactory.create_version_dispatch
    rw [hb0, hv]
    simp only [if_pos hlong, if_pos hzero]
  · intro hnz hns
    unfold QUICPacketFactory.create_version_dispatch
    rw [hb0, hv]
    simp only [if_pos hlong, if_neg hnz, if_neg hns]
  · intro bs' htake
    have hlen' : 5 ≤ bs'.length := by
      have := congrArg List.length htake
      simp only [List.length_take] at this
      omega
    have hb0' : byteAt bs' 0 = some b0 := by
      unfold byteAt at hb0 ⊢
      rw [← List.getElem?_take_of_lt (l := bs') (n := 5) (m := 0) (by norm_num), htake,
        List.getElem?_take_of_lt (by norm_num)]
      exact hb0
    have hdt : (bs'.drop 1).take 4 = (bs.drop 1).take 4 := by
      rw [List.take_drop, List.take_drop, htake]
    have hv' : readBEAt bs' 1 4 = some v := by
      unfold readBEAt at hv ⊢
      rw [if_pos (by omega)] at hv ⊢
      rw [hdt]
      exact hv
    unfold QUICPacketFactory.create_version_dispatch
    rw [hb0, hb0', hv, hv']

/-- C6 witness: concrete five-byte long-header buffers — version zero gives a
Version Negotiation packet with Success; version 5 against supported set
`[1]` is rejected as unsupported; a buffer agreeing on the first five bytes
decides identically. -/
theorem c6_create_version_dispatch_witness :
    byteAt [0xc3, 0, 0, 0, 5] 0 = some 0xc3 ∧ (128 : Nat) ≤ 0xc3 ∧
      readBEAt [0xc3, 0, 0, 0, 5] 1 4 = some 5 ∧ (5 : Nat) ≠ 0 ∧ (5 : Nat) ∉ ([1] : List Nat) ∧
      QUICPacketFactory.create_version_dispatch [1] [0xc3, 0, 0, 0, 5]
        = .rejected .unsupported_version ∧
      QUICPacketFactory.create_version_dispatch [1] ([0xc3, 0, 0, 0, 5] ++ [7, 7])
        = QUICPacketFactory.create_version_dispatch [1] [0xc3, 0, 0, 0, 5] := by
  have h := c6_create_version_dispatch [1] [0xc3, 0, 0, 0, 5] 0xc3 5
    (by decide) (by decide) (by decide)
  exact ⟨by decide, by decide, by decide, by decide, by decide,
    h.2.1 (by decide) (by decide), h.2.2 ([0xc3, 0, 0, 0, 5] ++ [7, 7]) (by decide)⟩

/-- C8 witness: a generator starting at 5 yields strictly increasing values
over three calls, and its counter after 1 call is at most the counter after
2 calls. -/
theorem c8_generator_monotone_witness :
    List.Pairwise (· < ·) ((⟨5⟩ : QUICPacketNumberGenerator).returns 3) ∧
      ((1 : Nat) ≤ 2 ∧
        ((⟨5⟩ : QUICPacketNumberGenerator).afterCalls 1)._current
          ≤ ((⟨5⟩ : QUICPacketNumberGenerator).afterCalls 2)._current) ∧
      (⟨5⟩ : QUICPacketNumberGenerator).next = (5, ⟨6⟩) := by
  have h := c8_generator_monotone ⟨5⟩ 3
  exact ⟨h.1, ⟨by decide, h.2.1 1 2 (by decide)⟩, h.2.2⟩
